import Mathlib

/-!
Verification of the vehicle dynamics and collision subsystem of the tdr2024
top-down racing game (src/geometry.rs, src/physics.rs, src/mapping.rs,
src/objectmap.rs, src/main.rs).

Modelling conventions.  The source works on 32-bit floats; the embedding
replaces IEEE arithmetic by exact rational arithmetic, keeping every formula
of the source verbatim.  The two places where the source divides by a
Euclidean norm (a square root, hence irrational) are handled as follows:
in reflect_against_line the two occurrences of the unit normal are combined
into the algebraically equal square-root-free form, and the two separation
loops take the already-normalized push direction as an explicit parameter,
constrained in the theorems exactly as the source computes it (a positive
multiple of the corresponding vector).  Rust saturating float-to-integer
casts are modelled exactly (truncation toward zero, clamping at the type
bounds).  Fallible constructors (assert-guarded) return Option.  The
unbounded while loops of the collision code are embedded with explicit fuel;
statements about a terminating run are conditioned on the loop returning
some result, which is precisely what the specification claims say.
-/

namespace TDR

/-- Exact rational stand-in for the f32 based two-dimensional vector type. -/
@[ext]
structure Vec2 where
  x : ℚ
  y : ℚ
deriving DecidableEq

instance : Add Vec2 := ⟨fun a b => ⟨a.x + b.x, a.y + b.y⟩⟩

instance : Sub Vec2 := ⟨fun a b => ⟨a.x - b.x, a.y - b.y⟩⟩

instance : Neg Vec2 := ⟨fun a => ⟨-a.x, -a.y⟩⟩

instance : SMul ℚ Vec2 := ⟨fun c a => ⟨c * a.x, c * a.y⟩⟩

instance : Zero Vec2 := ⟨⟨0, 0⟩⟩

/-- Dot product of two-dimensional vectors. -/
def Vec2.dot (a b : Vec2) : ℚ := a.x * b.x + a.y * b.y

/-- Counter-clockwise perpendicular, after glam's Vec2::perp. -/
def Vec2.perp (a : Vec2) : Vec2 := ⟨-a.y, a.x⟩

@[simp] theorem vec2_add_def (a b : Vec2) : a + b = ⟨a.x + b.x, a.y + b.y⟩ := rfl

@[simp] theorem vec2_sub_def (a b : Vec2) : a - b = ⟨a.x - b.x, a.y - b.y⟩ := rfl

@[simp] theorem vec2_neg_def (a : Vec2) : -a = ⟨-a.x, -a.y⟩ := rfl

@[simp] theorem vec2_smul_def (c : ℚ) (a : Vec2) : c • a = ⟨c * a.x, c * a.y⟩ := rfl

@[simp] theorem vec2_zero_def : (0 : Vec2) = ⟨0, 0⟩ := rfl

/-- Exact rational stand-in for the f32 based three-dimensional vector type. -/
@[ext]
structure Vec3 where
  x : ℚ
  y : ℚ
  z : ℚ
deriving DecidableEq

instance : Add Vec3 := ⟨fun a b => ⟨a.x + b.x, a.y + b.y, a.z + b.z⟩⟩

instance : Sub Vec3 := ⟨fun a b => ⟨a.x - b.x, a.y - b.y, a.z - b.z⟩⟩

instance : Neg Vec3 := ⟨fun a => ⟨-a.x, -a.y, -a.z⟩⟩

instance : SMul ℚ Vec3 := ⟨fun c a => ⟨c * a.x, c * a.y, c * a.z⟩⟩

instance : Zero Vec3 := ⟨⟨0, 0, 0⟩⟩

/-- Cross product on three-dimensional vectors. -/
def Vec3.cross (a b : Vec3) : Vec3 :=
  ⟨a.y * b.z - a.z * b.y, a.z * b.x - a.x * b.z, a.x * b.y - a.y * b.x⟩

/-- Dot product on three-dimensional vectors. -/
def Vec3.dot (a b : Vec3) : ℚ := a.x * b.x + a.y * b.y + a.z * b.z

/-- Lift a planar vector into z = 0, after Vec3::from((v, 0.0)) in the source. -/
def Vec3.ofVec2 (v : Vec2) : Vec3 := ⟨v.x, v.y, 0⟩

@[simp] theorem vec3_add_def (a b : Vec3) : a + b = ⟨a.x + b.x, a.y + b.y, a.z + b.z⟩ := rfl

@[simp] theorem vec3_sub_def (a b : Vec3) : a - b = ⟨a.x - b.x, a.y - b.y, a.z - b.z⟩ := rfl

@[simp] theorem vec3_neg_def (a : Vec3) : -a = ⟨-a.x, -a.y, -a.z⟩ := rfl

@[simp] theorem vec3_smul_def (c : ℚ) (a : Vec3) : c • a = ⟨c * a.x, c * a.y, c * a.z⟩ := rfl

@[simp] theorem vec3_zero_def : (0 : Vec3) = ⟨0, 0, 0⟩ := rfl

/-- Embedding of same_side from src/physics.rs (identical copy in
src/main.rs and src/geometry.rs): both points are lifted into z = 0, the
cross products of the edge with each point offset are compared through a
dot product, and a nonnegative product counts as the same side. -/
def same_side (p1 p2 : Vec2) (line : Vec2 × Vec2) : Bool :=
  let q1 := Vec3.ofVec2 p1
  let q2 := Vec3.ofVec2 p2
  let l0 := Vec3.ofVec2 line.1
  let l1 := Vec3.ofVec2 line.2
  let cp1 := (l1 - l0).cross (q1 - l0)
  let cp2 := (l1 - l0).cross (q2 - l0)
  decide (0 ≤ cp1.dot cp2)

/-- Cyclic indexing into the vertex list of a polygon. -/
def cyclicGet (shape : List Vec2) (i : ℕ) : Vec2 :=
  shape.getD (i % shape.length) 0

/-- Embedding of point_in_polygon from src/physics.rs: the source iterates
windows(3) over the vertex slice and then chains the two wrapped-around
triples, which for a polygon of n vertices is exactly the n cyclic triples
(s i, s (i+1), s (i+2)).  For each triple the point must be on the same
side of the edge (s (i+1), s (i+2)) as the vertex s i.  (For fewer than two
vertices the source indexes out of bounds and panics; no caller does that.) -/
def point_in_polygon (pt : Vec2) (shape : List Vec2) : Bool :=
  (List.range shape.length).all fun i =>
    same_side pt (cyclicGet shape i) (cyclicGet shape (i + 1), cyclicGet shape (i + 2))

/-- Embedding of CollisionBox::is_touching from src/physics.rs: a vertex
containment test in both directions. -/
def is_touching (a b : List Vec2) : Bool :=
  (b.any fun pt => point_in_polygon pt a) || (a.any fun pt => point_in_polygon pt b)

/-- Affine transform on the plane, standing in for the bevy Transform used
by the source.  All rotations the game performs are about the z axis, so on
the xy plane a transform acts as a linear map (rotation composed with scale,
kept here as a general 2 by 2 matrix) followed by a translation; the z
coordinate of a transformed z = 0 point is the z translation. -/
@[ext]
structure Transform where
  tx : ℚ
  ty : ℚ
  tz : ℚ
  m00 : ℚ
  m01 : ℚ
  m10 : ℚ
  m11 : ℚ
deriving DecidableEq

/-- Image of a z = 0 point under the transform, projected back to the plane,
after tf.transform_point followed by vec2(pt.x, pt.y) in the source. -/
def Transform.transform_point (tf : Transform) (v : Vec2) : Vec2 :=
  ⟨tf.m00 * v.x + tf.m01 * v.y + tf.tx, tf.m10 * v.x + tf.m11 * v.y + tf.ty⟩

/-- Translation component of the transform. -/
def Transform.translation (tf : Transform) : Vec3 := ⟨tf.tx, tf.ty, tf.tz⟩

/-- Adding a vector to the translation, after translation += delta. -/
def Transform.addTranslation (tf : Transform) (d : Vec3) : Transform :=
  { tf with tx := tf.tx + d.x, ty := tf.ty + d.y, tz := tf.tz + d.z }

/-- Identity-rotation transform at a given translation. -/
def Transform.idAt (t : Vec3) : Transform := ⟨t.x, t.y, t.z, 1, 0, 0, 1⟩

/-- Planar center of a body, vec2(tf.translation.x, tf.translation.y). -/
def center (tf : Transform) : Vec2 := ⟨tf.tx, tf.ty⟩

@[simp] theorem Transform.addTranslation_translation (tf : Transform) (d : Vec3) :
    (tf.addTranslation d).translation = tf.translation + d := rfl

@[simp] theorem Transform.addTranslation_tz (tf : Transform) (d : Vec3) :
    (tf.addTranslation d).tz = tf.tz + d.z := rfl

/-- Untransformed corner points of CollisionBox::from_transform in
src/physics.rs: an octagon obtained from the sprite size by cutting each
corner by c = min(w, h) / 2.5 on the half extents w, h. -/
def boxBasePoints (sz : Vec2) : List Vec2 :=
  let w := sz.x * (1 / 2)
  let h := sz.y * (1 / 2)
  let c := min w h / (5 / 2)
  [⟨c - w, h⟩, ⟨w - c, h⟩, ⟨w, h - c⟩, ⟨w, c - h⟩,
   ⟨w - c, -h⟩, ⟨c - w, -h⟩, ⟨-w, c - h⟩, ⟨-w, h - c⟩]

/-- Embedding of CollisionBox::from_transform: the base octagon mapped
through the entity's transform. -/
def collision_box (tf : Transform) (sz : Vec2) : List Vec2 :=
  (boxBasePoints sz).map tf.transform_point

/-- Embedding of length_of_line squared.  The source compares distances
through a square root; the comparisons below are carried out on the squares,
which orders nonnegative quantities identically. -/
def length_sq (line : Vec2 × Vec2) : ℚ :=
  (line.2.x - line.1.x) ^ 2 + (line.2.y - line.1.y) ^ 2

/-- Embedding of area_of_triangle from src/physics.rs and src/geometry.rs. -/
def area_of_triangle (t : Vec2 × Vec2 × Vec2) : ℚ :=
  |((t.1.x - t.2.2.x) * (t.2.1.y - t.1.y)) - ((t.1.x - t.2.1.x) * (t.2.2.y - t.1.y))| / 2

/-- Square of distance_to_line, that is (2 area / length)^2, kept inside the
rationals.  Since both distances are nonnegative, comparing squares agrees
with the source's comparison of the distances themselves (for nondegenerate
edges; a zero-length edge makes the source panic on an incomparable NaN). -/
def distance_to_line_sq (pt : Vec2) (line : Vec2 × Vec2) : ℚ :=
  (2 * area_of_triangle (pt, line.1, line.2)) ^ 2 / length_sq line

/-- Edge list of a polygon: the source iterates windows(2) and chains the
wrap-around edge, which is exactly the cyclic pairs. -/
def edges (shape : List Vec2) : List (Vec2 × Vec2) :=
  (List.range shape.length).map fun i => (cyclicGet shape i, cyclicGet shape (i + 1))

/-- Rust Iterator::min_by keeps the first of several minimal elements; a
left fold replacing the accumulator only on a strict decrease does the same. -/
def min_by_first {α : Type} (f : α → ℚ) : List α → Option α
  | [] => none
  | a :: rest => some (rest.foldl (fun acc e => if f e < f acc then e else acc) a)

/-- Embedding of closest_edge_to_point from src/physics.rs: the edge of the
polygon minimizing the distance to the point, first edge winning ties.  The
getD default stands for the panic on an empty shape, which no caller hits. -/
def closest_edge_to_point (pt : Vec2) (shape : List Vec2) : Vec2 × Vec2 :=
  (min_by_first (distance_to_line_sq pt) (edges shape)).getD (0, 0)

/-- Embedding of reflect_against_line from src/physics.rs and
src/geometry.rs.  The source computes the unit normal n = p / |p| of the
perpendicular p of the line direction and returns v - 2 (v.dot n) n; in
exact arithmetic (v.dot (p / |p|)) (p / |p|) = ((v.dot p) / (p.dot p)) p,
which is the square-root-free form used here. -/
def reflect_against_line (v : Vec2) (line : Vec2 × Vec2) : Vec2 :=
  let p := (line.2 - line.1).perp
  v - (2 * v.dot p / p.dot p) • p

/-- Separation loop of collision_detection in src/physics.rs (lines 212 to
218): while the two boxes touch, shift one transform by the negated nudge
and the other by the nudge, recomputing both boxes.  The loop is unbounded
in the source, so the embedding carries fuel and returns none when the fuel
runs out while still touching. -/
def nudge_loop (asz bsz : Vec2) (nudge : Vec3) :
    ℕ → Transform → Transform → Option (Transform × Transform)
  | 0, atf, btf =>
    if is_touching (collision_box atf asz) (collision_box btf bsz) then none
    else some (atf, btf)
  | fuel + 1, atf, btf =>
    if is_touching (collision_box atf asz) (collision_box btf bsz) then
      nudge_loop asz bsz nudge fuel (atf.addTranslation (-nudge)) (btf.addTranslation nudge)
    else some (atf, btf)

/-- Embedding of the body of collision_detection from src/physics.rs (the
same code appears in src/main.rs) for one pair of moving colliders: if the
boxes touch, the velocities are swapped and both bodies are nudged apart by
half a unit each along dir, the normalized vector from the first center to
the second.  The source computes dir as (b2 - a2).normalize(); the division
by the Euclidean norm is irrational, so the embedding takes dir as a
parameter, constrained in the theorems to be a positive multiple of b2 - a2
exactly as the claims state it. -/
def collision_detection_pair (fuel : ℕ) (dir : Vec2) (asz bsz : Vec2)
    (atf btf : Transform) (av bv : Vec2) :
    Option (Transform × Transform × Vec2 × Vec2) :=
  let abox := collision_box atf asz
  let bbox := collision_box btf bsz
  if is_touching abox bbox then
    let nudge : Vec3 := ⟨dir.x * (1 / 2), dir.y * (1 / 2), 0⟩
    (nudge_loop asz bsz nudge fuel atf btf).map fun p => (p.1, p.2, bv, av)
  else
    some (atf, btf, av, bv)

/-- Tree collider corner points from fixed_collision_detection in
src/physics.rs. -/
def tree_points : List Vec2 :=
  [⟨-25, 50⟩, ⟨25, 50⟩, ⟨50, 25⟩, ⟨50, -25⟩,
   ⟨25, -50⟩, ⟨-25, -50⟩, ⟨-50, -25⟩, ⟨-50, 25⟩]

/-- Block collider corner points from fixed_collision_detection in
src/physics.rs. -/
def block_points : List Vec2 :=
  [⟨-224, 112⟩, ⟨0, 112⟩, ⟨224, 112⟩, ⟨224, 0⟩,
   ⟨224, -112⟩, ⟨0, -112⟩, ⟨-224, -112⟩, ⟨-224, 0⟩]

/-- The two static scenery collider kinds of src/objectmap.rs. -/
inductive Collider
  | tree
  | block

/-- Base points of a collider, per the match in fixed_collision_detection. -/
def Collider.basePoints : Collider → List Vec2
  | .tree => tree_points
  | .block => block_points

/-- World-space obstacle box: base points mapped through the scenery
transform, as in fixed_collision_detection. -/
def obstacle_box (c : Collider) (tf : Transform) : List Vec2 :=
  c.basePoints.map tf.transform_point

/-- Push-out loop of fixed_collision_detection: while the car box touches
the obstacle box, add the step to the car translation and recompute the car
box.  Fuel-bounded as for nudge_loop. -/
def push_loop (sz : Vec2) (objBox : List Vec2) (step : Vec3) :
    ℕ → Transform → Option Transform
  | 0, tf =>
    if is_touching (collision_box tf sz) objBox then none else some tf
  | fuel + 1, tf =>
    if is_touching (collision_box tf sz) objBox then
      push_loop sz objBox step fuel (tf.addTranslation step)
    else some tf

/-- Embedding of the body of fixed_collision_detection from src/physics.rs
for one car against one obstacle box.  If some car vertex lies inside the
obstacle the source takes the first such vertex, reflects the car velocity
off the obstacle edge closest to it and pushes the car one unit at a time
along the normalized reflected velocity until the boxes no longer touch;
else if some obstacle vertex lies inside the car box the velocity is negated
and the car pushed likewise; else nothing changes.  As with
collision_detection_pair, the normalized push direction is taken as the
parameter dir (the source computes car_vel.normalize() after updating the
velocity), constrained in the theorems as a positive multiple of the updated
velocity. -/
def fixed_collision_car (fuel : ℕ) (dir : Vec2) (sz : Vec2) (carTf : Transform)
    (carVel : Vec2) (objBox : List Vec2) : Option (Transform × Vec2) :=
  let carBox := collision_box carTf sz
  match carBox.find? (fun pt => point_in_polygon pt objBox) with
  | some pt =>
      let line := closest_edge_to_point pt objBox
      let v := reflect_against_line carVel line
      (push_loop sz objBox ⟨dir.x, dir.y, 0⟩ fuel carTf).map fun tf => (tf, v)
  | none =>
      if objBox.any (fun pt => point_in_polygon pt carBox) then
        let v := -carVel
        (push_loop sz objBox ⟨dir.x, dir.y, 0⟩ fuel carTf).map fun tf => (tf, v)
      else
        some (carTf, carVel)

/-- The guidance field of src/mapping.rs: an image of width w, height h with
a gray intensity at every pixel.  The construction by upscaling and blurring
is outside the claims under proof; the queries below only need the stored
grid. -/
structure GuidanceField where
  w : ℕ
  h : ℕ
  pix : ℕ → ℕ → ℕ

/-- Saturating cast from a rational to an unsigned 32-bit integer, after the
semantics of a Rust float-to-integer as cast: truncation toward zero with
saturation at the type bounds, so every negative input collapses to zero. -/
def cast_u32 (q : ℚ) : ℕ :=
  if q < 0 then 0 else min (Int.toNat ⌊q⌋) (2 ^ 32 - 1)

/-- Embedding of GuidanceField::get from src/mapping.rs (identical copy in
src/main.rs): the query point is shifted by half the image extent, the row
is flipped (image rows grow downward), and the pixel is fetched through
get_pixel_checked with 0 as the fallback for coordinates outside the image. -/
def GuidanceField.get (f : GuidanceField) (pos : Vec2) : ℤ :=
  let px : ℚ := (f.w : ℚ) * (1 / 2) + pos.x
  let py : ℚ := (f.h : ℚ) * (1 / 2) + pos.y
  if cast_u32 py < f.h then
    let x := cast_u32 px
    let y := f.h - cast_u32 py
    if x < f.w ∧ y < f.h then (f.pix x y : ℤ) else 0
  else 0

/-- Embedding of apply_friction from src/physics.rs for one car: the
velocity shrinks by the factor 1 - dt * 1.2, and when a guidance field is
present and samples below 140 at the car position an extra factor
1 - dt * (1.2 + 1.2 * (1 - pixel / 140)) is applied on top. -/
def apply_friction (guide : Option GuidanceField) (dt : ℚ) (pos v : Vec2) : Vec2 :=
  let v1 := (1 - dt * (6 / 5)) • v
  match guide with
  | none => v1
  | some g =>
      let pixel := g.get pos
      if pixel < 140 then
        let factor := 6 / 5 + 6 / 5 * (1 - (pixel : ℚ) / 140)
        (1 - dt * factor) • v1
      else v1

/-- Exact value of the f32 constant std::f32::consts::PI used by the
source: 13176795 / 2^22, the closest single-precision float to the real pi. -/
def pi_f32 : ℚ := 13176795 / 4194304

theorem pi_f32_pos : (0 : ℚ) < pi_f32 := by norm_num [pi_f32]

/-- Measure decrease for the first wrapping loop of Angle::normalize. -/
theorem wrap_down_measure (a : ℚ) (h : pi_f32 < a) :
    (⌈(a - 2 * pi_f32 - pi_f32) / (2 * pi_f32)⌉).toNat <
      (⌈(a - pi_f32) / (2 * pi_f32)⌉).toNat := by
  have h2 : (0 : ℚ) < 2 * pi_f32 := by linarith [pi_f32_pos]
  have key : (a - 2 * pi_f32 - pi_f32) / (2 * pi_f32) = (a - pi_f32) / (2 * pi_f32) - 1 := by
    field_simp
    ring
  have hpos : 0 < (a - pi_f32) / (2 * pi_f32) := div_pos (by linarith) h2
  have hceil : 0 < ⌈(a - pi_f32) / (2 * pi_f32)⌉ := Int.ceil_pos.mpr hpos
  rw [key]
  rw [show ((a - pi_f32) / (2 * pi_f32) - 1) = ((a - pi_f32) / (2 * pi_f32) - (1 : ℤ)) by push_cast; ring]
  rw [Int.ceil_sub_int]
  omega

/-- Measure decrease for the second wrapping loop of Angle::normalize. -/
theorem wrap_up_measure (a : ℚ) (h : a < -pi_f32) :
    (⌈(-pi_f32 - (a + 2 * pi_f32)) / (2 * pi_f32)⌉).toNat <
      (⌈(-pi_f32 - a) / (2 * pi_f32)⌉).toNat := by
  have h2 : (0 : ℚ) < 2 * pi_f32 := by linarith [pi_f32_pos]
  have key : (-pi_f32 - (a + 2 * pi_f32)) / (2 * pi_f32) = (-pi_f32 - a) / (2 * pi_f32) - 1 := by
    field_simp
    ring
  have hpos : 0 < (-pi_f32 - a) / (2 * pi_f32) := div_pos (by linarith) h2
  have hceil : 0 < ⌈(-pi_f32 - a) / (2 * pi_f32)⌉ := Int.ceil_pos.mpr hpos
  rw [key]
  rw [show ((-pi_f32 - a) / (2 * pi_f32) - 1) = ((-pi_f32 - a) / (2 * pi_f32) - (1 : ℤ)) by push_cast; ring]
  rw [Int.ceil_sub_int]
  omega

/-- First loop of Angle::normalize from src/physics.rs: while the angle
exceeds pi, subtract two pi. -/
def wrap_down (a : ℚ) : ℚ :=
  if h : pi_f32 < a then wrap_down (a - 2 * pi_f32) else a
termination_by (⌈(a - pi_f32) / (2 * pi_f32)⌉).toNat
decreasing_by exact wrap_down_measure a h

/-- Second loop of Angle::normalize from src/physics.rs: while the angle is
below minus pi, add two pi. -/
def wrap_up (a : ℚ) : ℚ :=
  if h : a < -pi_f32 then wrap_up (a + 2 * pi_f32) else a
termination_by (⌈(-pi_f32 - a) / (2 * pi_f32)⌉).toNat
decreasing_by exact wrap_up_measure a h

/-- Embedding of Angle::normalize: both wrapping loops in source order. -/
def angle_normalize (a : ℚ) : ℚ := wrap_up (wrap_down a)

/-- Whisker sample intensities of handle_ai_players in src/main.rs.  The
facing direction Vec2::from_angle is trigonometric, hence irrational; the
embedding abstracts it as the parameter fromAngle, so the theorems hold for
every possible valuation, in particular the one f32 computes. -/
def left_pixel (fromAngle : ℚ → Vec2) (g : GuidanceField) (pos : Vec2) (a : ℚ) : ℤ :=
  g.get (pos + (425 : ℚ) • fromAngle (a + pi_f32 / 12))

/-- Far right whisker sample of handle_ai_players. -/
def right_pixel (fromAngle : ℚ → Vec2) (g : GuidanceField) (pos : Vec2) (a : ℚ) : ℤ :=
  g.get (pos + (425 : ℚ) • fromAngle (a - pi_f32 / 12))

/-- Near left whisker sample of handle_ai_players. -/
def left_pixel2 (fromAngle : ℚ → Vec2) (g : GuidanceField) (pos : Vec2) (a : ℚ) : ℤ :=
  g.get (pos + (200 : ℚ) • fromAngle (a + pi_f32 / 6))

/-- Near right whisker sample of handle_ai_players. -/
def right_pixel2 (fromAngle : ℚ → Vec2) (g : GuidanceField) (pos : Vec2) (a : ℚ) : ℤ :=
  g.get (pos + (200 : ℚ) • fromAngle (a - pi_f32 / 6))

/-- Forward whisker sample of handle_ai_players. -/
def front_pixel (fromAngle : ℚ → Vec2) (g : GuidanceField) (pos : Vec2) (a : ℚ) : ℤ :=
  g.get (pos + (425 : ℚ) • fromAngle a)

/-- Mutable per-car state touched by the AI controller. -/
structure AiState where
  angle : ℚ
  vel : Vec2
  penalty : ℚ
deriving DecidableEq

/-- Embedding of the loop body of handle_ai_players from src/main.rs for one
AI car, with a guidance field available (the system returns before the loop
when none exists).  A positive penalty only decays; otherwise the five
whiskers are sampled, the angle turns left or right by 3 * dt when one
whisker pair is brighter on that side by more than 10, the forward whisker
gates a 600 * dt acceleration along the facing of the updated angle, and the
angle is normalized. -/
def handle_ai_player (fromAngle : ℚ → Vec2) (g : GuidanceField) (dt : ℚ)
    (pos : Vec2) (s : AiState) : AiState :=
  if 0 < s.penalty then
    { s with penalty := if s.penalty < dt then 0 else s.penalty - dt }
  else
    let lp := left_pixel fromAngle g pos s.angle
    let rp := right_pixel fromAngle g pos s.angle
    let lp2 := left_pixel2 fromAngle g pos s.angle
    let rp2 := right_pixel2 fromAngle g pos s.angle
    let fp := front_pixel fromAngle g pos s.angle
    let a1 := if lp - 10 > rp ∨ lp2 - 10 > rp2 then s.angle + dt * 3 else s.angle
    let a2 := if rp - 10 > lp ∨ rp2 - 10 > lp2 then a1 - dt * 3 else a1
    let v := if fp > 50 then s.vel + (dt * 600) • fromAngle a2 else s.vel
    ⟨angle_normalize a2, v, s.penalty⟩

/-- Checkpoint bit as assigned by spawn_shape in src/objectmap.rs: the
component LapCounter(1 << num) with num the authoring order of the shape. -/
def checkpoint_bit (num : ℕ) : ℕ := 1 <<< num

/-- Modelled from the spec: the per-car lap bookkeeping (the lap_count,
sub_mask and start_finish_bit fields of Racer and the checkpoint touch
handler) is not part of the sources provided; only the checkpoint bit
assignment in src/objectmap.rs and the dashboard reader of lap_count are.
This state triple follows section 4.6 of the spec. -/
structure LapState where
  lap_count : ℕ
  sub_mask : ℕ
  start_finish_bit : ℕ
deriving DecidableEq

/-- Modelled from the spec: the transition taken when a car touches a
checkpoint carrying the bit value bit, following section 4.6 of the spec: a
car with unset start/finish bit records this checkpoint as its start/finish
line; the bit is OR-ed into sub_mask; if sub_mask now equals fullMask and
the bit equals the start/finish bit, lap_count increments and sub_mask
resets to this single bit. -/
def lap_touch (fullMask bit : ℕ) (s : LapState) : LapState :=
  let sfb := if s.start_finish_bit = 0 then bit else s.start_finish_bit
  let sub := s.sub_mask ||| bit
  if sub = fullMask ∧ bit = sfb then
    ⟨s.lap_count + 1, bit, sfb⟩
  else
    ⟨s.lap_count, sub, sfb⟩

/-- Polygon of src/geometry.rs: an ordered list of vertices. -/
structure Polygon where
  shape : List Vec2
deriving DecidableEq

/-- Embedding of the FromIterator implementation for Polygon in
src/geometry.rs: the collected points are stored as they come, without any
check on their number. -/
def Polygon.from_iter (l : List Vec2) : Polygon := ⟨l⟩

/-- Embedding of Polygon::from_vec: the assert on a positive size is
modelled by returning none (a panic) outside the precondition; inside it the
four rectangle corners are collected. -/
def Polygon.from_vec (sz : Vec2) : Option Polygon :=
  if 0 < sz.x ∧ 0 < sz.y then
    let w := sz.x / 2
    let h := sz.y / 2
    some (Polygon.from_iter [⟨-w, h⟩, ⟨w, h⟩, ⟨w, -h⟩, ⟨-w, -h⟩])
  else none

/-- Embedding of Polygon::from_vec_with_rounding: the asserts on a positive
size and a percentage strictly between 0 and 100 are modelled by returning
none outside the precondition; inside it the eight octagon corners are
collected. -/
def Polygon.from_vec_with_rounding (sz : Vec2) (percent : ℚ) : Option Polygon :=
  if (0 < sz.x ∧ 0 < sz.y) ∧ (0 < percent ∧ percent < 100) then
    let w := sz.x / 2
    let h := sz.y / 2
    let m := min w h
    let c := m - (1 / 100) * m * percent
    some (Polygon.from_iter
      [⟨c - w, h⟩, ⟨w - c, h⟩, ⟨w, h - c⟩, ⟨w, c - h⟩,
       ⟨w - c, -h⟩, ⟨c - w, -h⟩, ⟨-w, c - h⟩, ⟨-w, h - c⟩])
  else none

/-! Helper lemmas about the wrapping loops. -/

theorem wrap_down_le (a : ℚ) : wrap_down a ≤ pi_f32 := by
  rw [wrap_down]
  split
  · exact wrap_down_le (a - 2 * pi_f32)
  · next h => exact le_of_not_lt h
termination_by (⌈(a - pi_f32) / (2 * pi_f32)⌉).toNat
decreasing_by exact wrap_down_measure a (by assumption)

theorem wrap_down_lb (a : ℚ) (ha : -pi_f32 ≤ a) : -pi_f32 ≤ wrap_down a := by
  rw [wrap_down]
  split
  · next h => exact wrap_down_lb (a - 2 * pi_f32) (by linarith [pi_f32_pos])
  · exact ha
termination_by (⌈(a - pi_f32) / (2 * pi_f32)⌉).toNat
decreasing_by exact wrap_down_measure a (by assumption)

theorem wrap_down_congr (a : ℚ) : ∃ k : ℤ, wrap_down a = a + k * (2 * pi_f32) := by
  rw [wrap_down]
  split
  · next h =>
      obtain ⟨k, hk⟩ := wrap_down_congr (a - 2 * pi_f32)
      exact ⟨k - 1, by rw [hk]; push_cast; ring⟩
  · exact ⟨0, by push_cast; ring⟩
termination_by (⌈(a - pi_f32) / (2 * pi_f32)⌉).toNat
decreasing_by exact wrap_down_measure a (by assumption)

theorem wrap_up_ge (a : ℚ) : -pi_f32 ≤ wrap_up a := by
  rw [wrap_up]
  split
  · exact wrap_up_ge (a + 2 * pi_f32)
  · next h => exact le_of_not_lt h
termination_by (⌈(-pi_f32 - a) / (2 * pi_f32)⌉).toNat
decreasing_by exact wrap_up_measure a (by assumption)

theorem wrap_up_le (a : ℚ) (ha : a ≤ pi_f32) : wrap_up a ≤ pi_f32 := by
  rw [wrap_up]
  split
  · next h => exact wrap_up_le (a + 2 * pi_f32) (by linarith [pi_f32_pos])
  · exact ha
termination_by (⌈(-pi_f32 - a) / (2 * pi_f32)⌉).toNat
decreasing_by exact wrap_up_measure a (by assumption)

theorem wrap_up_congr (a : ℚ) : ∃ k : ℤ, wrap_up a = a + k * (2 * pi_f32) := by
  rw [wrap_up]
  split
  · next h =>
      obtain ⟨k, hk⟩ := wrap_up_congr (a + 2 * pi_f32)
      exact ⟨k + 1, by rw [hk]; push_cast; ring⟩
  · exact ⟨0, by push_cast; ring⟩
termination_by (⌈(-pi_f32 - a) / (2 * pi_f32)⌉).toNat
decreasing_by exact wrap_up_measure a (by assumption)

/-- C7 counterexample: at the representable input minus pi the loops both
leave the value untouched, so the result is exactly minus pi, which is not
strictly greater than minus pi: the claimed half-open interval is wrong at
its lower end. -/
theorem angle_normalize_neg_pi_not_in_open_interval :
    angle_normalize (-pi_f32) = -pi_f32 ∧ ¬ (-pi_f32 < angle_normalize (-pi_f32)) := by
  have h1 : wrap_down (-pi_f32) = -pi_f32 := by
    rw [wrap_down, dif_neg (by norm_num [pi_f32])]
  have h2 : angle_normalize (-pi_f32) = -pi_f32 := by
    unfold angle_normalize
    rw [h1, wrap_up, dif_neg (lt_irrefl _)]
  exact ⟨h2, by rw [h2]; exact lt_irrefl _⟩

/-- C7 (amended): Angle::normalize terminates on every input (the function
below is total by a well-founded recursion mirroring the two loops), the
result is congruent to the input modulo two pi, and it lies in the closed
interval from minus pi to pi; the interval is closed, not half-open, at
minus pi. -/
theorem angle_normalize_spec (a : ℚ) :
    (∃ k : ℤ, angle_normalize a = a + k * (2 * pi_f32)) ∧
      -pi_f32 ≤ angle_normalize a ∧ angle_normalize a ≤ pi_f32 := by
  unfold angle_normalize
  refine ⟨?_, wrap_up_ge _, wrap_up_le _ (wrap_down_le a)⟩
  obtain ⟨k1, hk1⟩ := wrap_down_congr a
  obtain ⟨k2, hk2⟩ := wrap_up_congr (wrap_down a)
  exact ⟨k1 + k2, by rw [hk2, hk1]; push_cast; ring⟩

/-! Reflection. -/

/-- Dot product of a reflected vector with the reflection normal direction:
it is the negated original dot product, the key step of the involution. -/
theorem reflect_formula_dot (w p : Vec2) (hp : p.x * p.x + p.y * p.y ≠ 0) :
    (w - (2 * w.dot p / p.dot p) • p).dot p = -(w.dot p) := by
  simp only [Vec2.dot, vec2_sub_def, vec2_smul_def]
  field_simp
  ring

/-- Reflection about a fixed nonzero direction is an involution. -/
theorem reflect_involution_aux (v p : Vec2) (hp : p.x * p.x + p.y * p.y ≠ 0) :
    (v - (2 * v.dot p / p.dot p) • p) -
        (2 * ((v - (2 * v.dot p / p.dot p) • p).dot p) / p.dot p) • p = v := by
  rw [reflect_formula_dot v p hp]
  obtain ⟨vx, vy⟩ := v
  obtain ⟨px, py⟩ := p
  simp only [Vec2.dot, vec2_sub_def, vec2_smul_def] at hp ⊢
  ext
  · show vx - _ - _ = vx
    field_simp
    ring
  · show vy - _ - _ = vy
    field_simp
    ring

/-- C9: reflecting a vector twice against the same nondegenerate line gives
back the original vector. -/
theorem reflect_against_line_involution (v : Vec2) (line : Vec2 × Vec2)
    (h : line.1 ≠ line.2) :
    reflect_against_line (reflect_against_line v line) line = v := by
  have hne : ¬ (line.2.x - line.1.x = 0 ∧ line.2.y - line.1.y = 0) := by
    rintro ⟨h1, h2⟩
    exact h (Vec2.ext (by linarith) (by linarith))
  have hp : ((line.2 - line.1).perp).x * ((line.2 - line.1).perp).x +
      ((line.2 - line.1).perp).y * ((line.2 - line.1).perp).y ≠ 0 := by
    simp only [Vec2.perp, vec2_sub_def]
    rcases not_and_or.mp hne with h1 | h1
    · have hx : 0 < (line.2.x - line.1.x) * (line.2.x - line.1.x) := mul_self_pos.mpr h1
      have hy : 0 ≤ (line.2.y - line.1.y) * (line.2.y - line.1.y) := mul_self_nonneg _
      exact ne_of_gt (by nlinarith)
    · have hy : 0 < (line.2.y - line.1.y) * (line.2.y - line.1.y) := mul_self_pos.mpr h1
      have hx : 0 ≤ (line.2.x - line.1.x) * (line.2.x - line.1.x) := mul_self_nonneg _
      exact ne_of_gt (by nlinarith)
  simp only [reflect_against_line]
  exact reflect_involution_aux v _ hp

/-! Polygon construction. -/

/-- C8 counterexample: the public FromIterator construction path accepts the
empty iterator and yields a polygon with zero points, so no assertion
guarantees at least three points on every construction path. -/
theorem polygon_from_iter_empty_lt_three :
    (Polygon.from_iter []).shape.length < 3 := by decide

/-- C8 (amended): the factory constructors from_vec and
from_vec_with_rounding always produce polygons with at least three points
(four and eight respectively) whenever their asserted preconditions hold,
but the FromIterator construction performs no point-count check and can
yield a polygon with fewer than three points; no assertion anywhere checks
the number of points. -/
theorem polygon_construction_point_counts :
    (∀ sz p, Polygon.from_vec sz = some p → p.shape.length = 4 ∧ 3 ≤ p.shape.length) ∧
      (∀ sz percent p, Polygon.from_vec_with_rounding sz percent = some p →
        p.shape.length = 8 ∧ 3 ≤ p.shape.length) ∧
      (∃ l : List Vec2, (Polygon.from_iter l).shape.length < 3) := by
  refine ⟨?_, ?_, ⟨[], by decide⟩⟩
  · intro sz p hp
    unfold Polygon.from_vec at hp
    split at hp
    · cases hp
      exact ⟨rfl, by simp [Polygon.from_iter]⟩
    · cases hp
  · intro sz percent p hp
    unfold Polygon.from_vec_with_rounding at hp
    split at hp
    · cases hp
      exact ⟨rfl, by simp [Polygon.from_iter]⟩
    · cases hp

/-- C8 witness: the factory path at a concrete positive size. -/
theorem polygon_construction_point_counts_witness :
    Polygon.from_vec ⟨100, 100⟩ = some (Polygon.from_iter
      [⟨-50, 50⟩, ⟨50, 50⟩, ⟨50, -50⟩, ⟨-50, -50⟩]) ∧
      (Polygon.from_iter [⟨-50, 50⟩, ⟨50, 50⟩, ⟨50, -50⟩, ⟨-50, -50⟩] : Polygon).shape.length = 4 ∧
      3 ≤ (Polygon.from_iter [⟨-50, 50⟩, ⟨50, 50⟩, ⟨50, -50⟩, ⟨-50, -50⟩] : Polygon).shape.length := by
  refine ⟨by with_unfolding_all rfl, ?_⟩
  exact polygon_construction_point_counts.1 ⟨100, 100⟩ _ (by with_unfolding_all rfl)

/-- C9 witness: the involution at a concrete vector and line. -/
theorem reflect_against_line_involution_witness :
    ((⟨0, 0⟩ : Vec2), (⟨1, 0⟩ : Vec2)).1 ≠ ((⟨0, 0⟩ : Vec2), (⟨1, 0⟩ : Vec2)).2 ∧
      reflect_against_line (reflect_against_line ⟨3, 4⟩ (⟨0, 0⟩, ⟨1, 0⟩)) (⟨0, 0⟩, ⟨1, 0⟩) =
        ⟨3, 4⟩ :=
  ⟨by with_unfolding_all decide,
    reflect_against_line_involution ⟨3, 4⟩ (⟨0, 0⟩, ⟨1, 0⟩) (by with_unfolding_all decide)⟩

/-! Guidance field queries. -/

theorem cast_u32_of_neg {q : ℚ} (h : q < 0) : cast_u32 q = 0 := by
  unfold cast_u32
  rw [if_pos h]

theorem le_cast_u32 {q : ℚ} {n : ℕ} (hq : (n : ℚ) ≤ q) (hn : n < 2 ^ 32) :
    n ≤ cast_u32 q := by
  unfold cast_u32
  rw [if_neg (not_lt.mpr (le_trans (by positivity) hq))]
  have h1 : (n : ℤ) ≤ ⌊q⌋ := Int.le_floor.mpr (by exact_mod_cast hq)
  omega

set_option maxRecDepth 8000

/-- C1 counterexample: on a 2 by 2 field whose pixels are all 255, the query
at x = -10 (far left of the pixel extent, whose columns cover shifted
coordinates 0 to 2) saturates the negative shifted column -9 to column 0 and
returns 255 instead of the claimed 0. -/
theorem guidance_get_negative_column_nonzero :
    (⟨2, 2, fun _ _ => 255⟩ : GuidanceField).get ⟨-10, 0⟩ = 255 ∧
      ((2 : ℕ) : ℚ) * (1 / 2) + (-10 : ℚ) < 0 := by
  constructor
  · with_unfolding_all rfl
  · norm_num

/-- C1 (amended): GuidanceField::get is total (never panics) and returns 0
whenever the shifted row coordinate is negative or at least the height, and
whenever the shifted column coordinate is at least the width; but a negative
shifted column coordinate saturates to column 0 under the Rust float-to-u32
cast and yields the pixel stored in column 0 rather than 0. -/
theorem guidance_get_out_of_bounds (f : GuidanceField) (pos : Vec2)
    (hw : f.w < 2 ^ 32) (hh : f.h < 2 ^ 32) :
    ((f.h : ℚ) * (1 / 2) + pos.y < 0 → f.get pos = 0) ∧
      ((f.h : ℚ) ≤ (f.h : ℚ) * (1 / 2) + pos.y → f.get pos = 0) ∧
      ((f.w : ℚ) ≤ (f.w : ℚ) * (1 / 2) + pos.x → f.get pos = 0) := by
  refine ⟨?_, ?_, ?_⟩
  · intro hpy
    simp only [GuidanceField.get, cast_u32_of_neg hpy]
    split
    · rw [if_neg]
      rintro ⟨-, hy⟩
      simp at hy
    · rfl
  · intro hpy
    have : f.h ≤ cast_u32 ((f.h : ℚ) * (1 / 2) + pos.y) := le_cast_u32 hpy hh
    simp only [GuidanceField.get]
    rw [if_neg (not_lt.mpr this)]
  · intro hpx
    have hx : f.w ≤ cast_u32 ((f.w : ℚ) * (1 / 2) + pos.x) := le_cast_u32 hpx hw
    simp only [GuidanceField.get]
    split
    · rw [if_neg]
      rintro ⟨hlt, -⟩
      exact absurd hlt (not_lt.mpr hx)
    · rfl

/-- C1 witness: the row rule at a concrete field and position below the
extent. -/
theorem guidance_get_out_of_bounds_witness :
    (4 : ℕ) < 2 ^ 32 ∧ (((4 : ℕ) : ℚ) * (1 / 2) + (-10 : ℚ) < 0) ∧
      (⟨4, 4, fun _ _ => 9⟩ : GuidanceField).get ⟨0, -10⟩ = 0 :=
  ⟨by norm_num, by norm_num,
    (guidance_get_out_of_bounds ⟨4, 4, fun _ _ => 9⟩ ⟨0, -10⟩ (by norm_num)
      (by norm_num)).1 (by norm_num)⟩

/-! Friction. -/

/-- C4: one tick of apply_friction multiplies the velocity by
1 - dt * 1.2; with a guidance field sampling below 140 at the car position a
further factor 1 - dt * (1.2 + 1.2 * (1 - pixel / 140)) applies, and with a
sample at 140 or above, or with no field, no extra factor applies; a car
with velocity (100, 0), no field and dt = 1/10 ends at (88, 0), of squared
magnitude 88 squared. -/
theorem apply_friction_spec (guide : Option GuidanceField) (dt : ℚ) (pos v : Vec2) :
    (guide = none → apply_friction guide dt pos v = (1 - dt * (6 / 5)) • v) ∧
      (∀ g, guide = some g →
        (g.get pos < 140 →
          apply_friction guide dt pos v =
            (1 - dt * (6 / 5 + 6 / 5 * (1 - (g.get pos : ℚ) / 140))) •
              ((1 - dt * (6 / 5)) • v)) ∧
        (140 ≤ g.get pos →
          apply_friction guide dt pos v = (1 - dt * (6 / 5)) • v)) ∧
      apply_friction none (1 / 10) 0 ⟨100, 0⟩ = ⟨88, 0⟩ ∧
      (apply_friction none (1 / 10) 0 ⟨100, 0⟩).dot (apply_friction none (1 / 10) 0 ⟨100, 0⟩) =
        88 * 88 := by
  refine ⟨?_, ?_, by with_unfolding_all rfl, by with_unfolding_all rfl⟩
  · rintro rfl
    rfl
  · rintro g rfl
    constructor
    · intro hlt
      simp only [apply_friction]
      rw [if_pos hlt]
    · intro hge
      simp only [apply_friction]
      rw [if_neg (not_lt.mpr hge)]

/-- C4 witness: the no-extra-drag branch at a concrete field whose sample at
the origin is 200, at least the threshold 140. -/
theorem apply_friction_spec_witness :
    (some (⟨2, 2, fun _ _ => 200⟩ : GuidanceField) = some ⟨2, 2, fun _ _ => 200⟩) ∧
      (140 : ℤ) ≤ (⟨2, 2, fun _ _ => 200⟩ : GuidanceField).get 0 ∧
      apply_friction (some ⟨2, 2, fun _ _ => 200⟩) (1 / 10) 0 ⟨100, 0⟩ =
        ((1 : ℚ) - 1 / 10 * (6 / 5)) • (⟨100, 0⟩ : Vec2) :=
  ⟨rfl, of_decide_eq_true (by with_unfolding_all rfl),
    ((apply_friction_spec (some ⟨2, 2, fun _ _ => 200⟩) (1 / 10) 0 ⟨100, 0⟩).2.1 _ rfl).2
      (of_decide_eq_true (by with_unfolding_all rfl))⟩

/-! Collision separation between moving bodies. -/

theorem nudge_loop_not_touching (asz bsz : Vec2) (nudge : Vec3) :
    ∀ (fuel : ℕ) (atf btf : Transform) (r : Transform × Transform),
      nudge_loop asz bsz nudge fuel atf btf = some r →
      is_touching (collision_box r.1 asz) (collision_box r.2 bsz) = false := by
  intro fuel
  induction fuel with
  | zero =>
    intro atf btf r h
    simp only [nudge_loop] at h
    split at h
    · cases h
    · next hx =>
        cases h
        exact Bool.eq_false_iff.mpr hx
  | succ n ih =>
    intro atf btf r h
    simp only [nudge_loop] at h
    split at h
    · exact ih _ _ _ h
    · next hx =>
        cases h
        exact Bool.eq_false_iff.mpr hx

theorem nudge_loop_translations (asz bsz : Vec2) (nudge : Vec3) :
    ∀ (fuel : ℕ) (atf btf : Transform) (r : Transform × Transform),
      nudge_loop asz bsz nudge fuel atf btf = some r →
      ∃ m : ℕ, r.1.translation = atf.translation - (m : ℚ) • nudge ∧
        r.2.translation = btf.translation + (m : ℚ) • nudge := by
  intro fuel
  induction fuel with
  | zero =>
    intro atf btf r h
    simp only [nudge_loop] at h
    split at h
    · cases h
    · cases h
      exact ⟨0, by ext <;> simp, by ext <;> simp⟩
  | succ n ih =>
    intro atf btf r h
    simp only [nudge_loop] at h
    split at h
    · obtain ⟨m, h1, h2⟩ := ih _ _ _ h
      refine ⟨m + 1, ?_, ?_⟩
      · rw [h1]
        simp only [Transform.addTranslation_translation]
        ext <;> simp <;> push_cast <;> ring
      · rw [h2]
        simp only [Transform.addTranslation_translation]
        ext <;> simp <;> push_cast <;> ring
    · cases h
      exact ⟨0, by ext <;> simp, by ext <;> simp⟩

/-- C3: for a touching pair of moving bodies with distinct centers, the
resolution swaps the two velocities and, whenever the separation loop
terminates, leaves the two collision boxes no longer touching; each body
carries the other's pre-collision velocity. -/
theorem collision_detection_swaps_and_separates (fuel : ℕ) (asz bsz : Vec2)
    (atf btf : Transform) (av bv dir : Vec2) (k : ℚ)
    (htouch : is_touching (collision_box atf asz) (collision_box btf bsz) = true)
    (hcent : center btf ≠ center atf) (hk : 0 < k)
    (hdir : dir = k • (center btf - center atf)) (r : Transform × Transform × Vec2 × Vec2)
    (hr : collision_detection_pair fuel dir asz bsz atf btf av bv = some r) :
    is_touching (collision_box r.1 asz) (collision_box r.2.1 bsz) = false ∧
      r.2.2.1 = bv ∧ r.2.2.2 = av := by
  simp only [collision_detection_pair] at hr
  rw [if_pos htouch, Option.map_eq_some'] at hr
  obtain ⟨p, hp, rfl⟩ := hr
  exact ⟨nudge_loop_not_touching asz bsz _ fuel atf btf p hp, rfl, rfl⟩

/-- C10: during pair resolution the two bodies receive exactly opposite
translations, the same number of steps of minus and plus half the direction
vector, so the vector sum of the two translations (hence the pair midpoint)
is preserved and both z components are unchanged. -/
theorem collision_detection_nudges_opposite (fuel : ℕ) (asz bsz : Vec2)
    (atf btf : Transform) (av bv dir : Vec2) (k : ℚ) (hk : 0 < k)
    (hdir : dir = k • (center btf - center atf)) (r : Transform × Transform × Vec2 × Vec2)
    (hr : collision_detection_pair fuel dir asz bsz atf btf av bv = some r) :
    (∃ m : ℕ,
        r.1.translation =
          atf.translation - (m : ℚ) • (⟨dir.x * (1 / 2), dir.y * (1 / 2), 0⟩ : Vec3) ∧
        r.2.1.translation =
          btf.translation + (m : ℚ) • (⟨dir.x * (1 / 2), dir.y * (1 / 2), 0⟩ : Vec3)) ∧
      r.1.translation + r.2.1.translation = atf.translation + btf.translation ∧
      r.1.tz = atf.tz ∧ r.2.1.tz = btf.tz := by
  simp only [collision_detection_pair] at hr
  split at hr
  · rw [Option.map_eq_some'] at hr
    obtain ⟨p, hp, rfl⟩ := hr
    obtain ⟨m, h1, h2⟩ := nudge_loop_translations asz bsz _ fuel atf btf p hp
    refine ⟨⟨m, h1, h2⟩, ?_, ?_, ?_⟩
    · rw [h1, h2]
      ext <;> simp <;> ring
    · have := congrArg Vec3.z h1
      simpa using this
    · have := congrArg Vec3.z h2
      simpa using this
  · cases hr
    refine ⟨⟨0, by ext <;> simp, by ext <;> simp⟩, rfl, rfl, rfl⟩

set_option maxHeartbeats 4000000

/-- C3 witness: two 10 by 10 boxes overlapping by one unit along the x axis
separate after two loop iterations with swapped velocities. -/
theorem collision_detection_swaps_and_separates_witness :
    is_touching (collision_box (Transform.idAt ⟨0, 0, 0⟩) ⟨10, 10⟩)
        (collision_box (Transform.idAt ⟨9, 0, 0⟩) ⟨10, 10⟩) = true ∧
      center (Transform.idAt ⟨9, 0, 0⟩) ≠ center (Transform.idAt ⟨0, 0, 0⟩) ∧
      (0 : ℚ) < 1 / 9 ∧
      (⟨1, 0⟩ : Vec2) =
        (1 / 9 : ℚ) • (center (Transform.idAt ⟨9, 0, 0⟩) - center (Transform.idAt ⟨0, 0, 0⟩)) ∧
      collision_detection_pair 10 ⟨1, 0⟩ ⟨10, 10⟩ ⟨10, 10⟩ (Transform.idAt ⟨0, 0, 0⟩)
          (Transform.idAt ⟨9, 0, 0⟩) ⟨3, 0⟩ ⟨-2, 0⟩ =
        some (Transform.idAt ⟨-1, 0, 0⟩, Transform.idAt ⟨10, 0, 0⟩, ⟨-2, 0⟩, ⟨3, 0⟩) ∧
      is_touching (collision_box (Transform.idAt ⟨-1, 0, 0⟩) ⟨10, 10⟩)
          (collision_box (Transform.idAt ⟨10, 0, 0⟩) ⟨10, 10⟩) = false ∧
      (⟨-2, 0⟩ : Vec2) = ⟨-2, 0⟩ ∧ (⟨3, 0⟩ : Vec2) = ⟨3, 0⟩ := by
  refine ⟨by with_unfolding_all rfl, of_decide_eq_true (by with_unfolding_all rfl),
    by norm_num, by with_unfolding_all rfl, by with_unfolding_all rfl, ?_⟩
  exact collision_detection_swaps_and_separates 10 ⟨10, 10⟩ ⟨10, 10⟩
    (Transform.idAt ⟨0, 0, 0⟩) (Transform.idAt ⟨9, 0, 0⟩) ⟨3, 0⟩ ⟨-2, 0⟩ ⟨1, 0⟩ (1 / 9)
    (by with_unfolding_all rfl) (of_decide_eq_true (by with_unfolding_all rfl))
    (by norm_num) (by with_unfolding_all rfl)
    (Transform.idAt ⟨-1, 0, 0⟩, Transform.idAt ⟨10, 0, 0⟩, ⟨-2, 0⟩, ⟨3, 0⟩)
    (by with_unfolding_all rfl)

/-- C10 witness: the same machinery on a pair pushed apart along the
negative x axis; the translation sum and both z components are unchanged. -/
theorem collision_detection_nudges_opposite_witness :
    (0 : ℚ) < 1 / 9 ∧
      (⟨-1, 0⟩ : Vec2) =
        (1 / 9 : ℚ) • (center (Transform.idAt ⟨-9, 0, 0⟩) - center (Transform.idAt ⟨0, 0, 0⟩)) ∧
      collision_detection_pair 10 ⟨-1, 0⟩ ⟨10, 10⟩ ⟨10, 10⟩ (Transform.idAt ⟨0, 0, 0⟩)
          (Transform.idAt ⟨-9, 0, 0⟩) ⟨0, 0⟩ ⟨1, 1⟩ =
        some (Transform.idAt ⟨1, 0, 0⟩, Transform.idAt ⟨-10, 0, 0⟩, ⟨1, 1⟩, ⟨0, 0⟩) ∧
      ((∃ m : ℕ,
          (Transform.idAt ⟨1, 0, 0⟩).translation =
            (Transform.idAt ⟨0, 0, 0⟩).translation -
              (m : ℚ) • (⟨(-1 : ℚ) * (1 / 2), (0 : ℚ) * (1 / 2), 0⟩ : Vec3) ∧
          (Transform.idAt ⟨-10, 0, 0⟩).translation =
            (Transform.idAt ⟨-9, 0, 0⟩).translation +
              (m : ℚ) • (⟨(-1 : ℚ) * (1 / 2), (0 : ℚ) * (1 / 2), 0⟩ : Vec3)) ∧
        (Transform.idAt ⟨1, 0, 0⟩).translation + (Transform.idAt ⟨-10, 0, 0⟩).translation =
          (Transform.idAt ⟨0, 0, 0⟩).translation + (Transform.idAt ⟨-9, 0, 0⟩).translation ∧
        (Transform.idAt ⟨1, 0, 0⟩).tz = (Transform.idAt ⟨0, 0, 0⟩).tz ∧
        (Transform.idAt ⟨-10, 0, 0⟩).tz = (Transform.idAt ⟨-9, 0, 0⟩).tz) := by
  refine ⟨by norm_num, by with_unfolding_all rfl, by with_unfolding_all rfl, ?_⟩
  exact collision_detection_nudges_opposite 10 ⟨10, 10⟩ ⟨10, 10⟩
    (Transform.idAt ⟨0, 0, 0⟩) (Transform.idAt ⟨-9, 0, 0⟩) ⟨0, 0⟩ ⟨1, 1⟩ ⟨-1, 0⟩ (1 / 9)
    (by norm_num) (by with_unfolding_all rfl)
    (Transform.idAt ⟨1, 0, 0⟩, Transform.idAt ⟨-10, 0, 0⟩, ⟨1, 1⟩, ⟨0, 0⟩)
    (by with_unfolding_all rfl)

/-! Collision against fixed scenery. -/

theorem push_loop_not_touching (sz : Vec2) (objBox : List Vec2) (step : Vec3) :
    ∀ (fuel : ℕ) (tf tf' : Transform),
      push_loop sz objBox step fuel tf = some tf' →
      is_touching (collision_box tf' sz) objBox = false := by
  intro fuel
  induction fuel with
  | zero =>
    intro tf tf' h
    simp only [push_loop] at h
    split at h
    · cases h
    · next hx =>
        cases h
        exact Bool.eq_false_iff.mpr hx
  | succ n ih =>
    intro tf tf' h
    simp only [push_loop] at h
    split at h
    · exact ih _ _ h
    · next hx =>
        cases h
        exact Bool.eq_false_iff.mpr hx

/-- C6: one car against one static obstacle box.  If some car vertex lies
inside the obstacle, the velocity becomes its reflection off the obstacle
edge closest to the first penetrating vertex and, when the push loop
terminates, the boxes no longer touch; else if some obstacle vertex lies
inside the car box, the velocity is negated and the car likewise pushed
until free; with neither containment the pair leaves transform and velocity
unchanged.  The unit push direction (the source normalizes the updated
velocity) is the parameter dir, constrained as a positive multiple of that
velocity. -/
theorem fixed_collision_cases (fuel : ℕ) (dir sz : Vec2) (tf : Transform) (v : Vec2)
    (objBox : List Vec2) :
    (∀ pt, (collision_box tf sz).find? (fun p => point_in_polygon p objBox) = some pt →
      (∃ k : ℚ, 0 < k ∧ dir = k • reflect_against_line v (closest_edge_to_point pt objBox)) →
      ∀ tf' v', fixed_collision_car fuel dir sz tf v objBox = some (tf', v') →
        v' = reflect_against_line v (closest_edge_to_point pt objBox) ∧
        is_touching (collision_box tf' sz) objBox = false) ∧
      ((collision_box tf sz).find? (fun p => point_in_polygon p objBox) = none →
        objBox.any (fun p => point_in_polygon p (collision_box tf sz)) = true →
        (∃ k : ℚ, 0 < k ∧ dir = k • (-v)) →
        ∀ tf' v', fixed_collision_car fuel dir sz tf v objBox = some (tf', v') →
          v' = -v ∧ is_touching (collision_box tf' sz) objBox = false) ∧
      ((collision_box tf sz).find? (fun p => point_in_polygon p objBox) = none →
        objBox.any (fun p => point_in_polygon p (collision_box tf sz)) = false →
        fixed_collision_car fuel dir sz tf v objBox = some (tf, v)) := by
  refine ⟨?_, ?_, ?_⟩
  · intro pt hfind _hdir tf' v' hres
    simp only [fixed_collision_car] at hres
    rw [hfind, Option.map_eq_some'] at hres
    obtain ⟨q, hq, heq⟩ := hres
    have h1 : q = tf' := congrArg Prod.fst heq
    have h2 : v' = reflect_against_line v (closest_edge_to_point pt objBox) :=
      (congrArg Prod.snd heq).symm
    subst h1
    exact ⟨h2, push_loop_not_touching sz objBox _ fuel tf _ hq⟩
  · intro hfind hany _hdir tf' v' hres
    simp only [fixed_collision_car] at hres
    rw [hfind] at hres
    rw [if_pos hany, Option.map_eq_some'] at hres
    obtain ⟨q, hq, heq⟩ := hres
    have h1 : q = tf' := congrArg Prod.fst heq
    have h2 : v' = -v := (congrArg Prod.snd heq).symm
    subst h1
    exact ⟨h2, push_loop_not_touching sz objBox _ fuel tf _ hq⟩
  · intro hfind hany
    simp only [fixed_collision_car]
    rw [hfind, if_neg (by simp [hany])]

/-- C6 witness: a 10 by 10 car at (0, 100) moving down into the block
obstacle centered at (130, 0); the first penetrating vertex is (-3, 105),
the closest obstacle edge is the top edge, the velocity reflects from
(0, -20) to (0, 20) and eighteen unit pushes separate the boxes. -/
theorem fixed_collision_cases_witness :
    (collision_box (Transform.idAt ⟨0, 100, 0⟩) ⟨10, 10⟩).find?
        (fun p => point_in_polygon p (obstacle_box .block (Transform.idAt ⟨130, 0, 0⟩))) =
      some ⟨-3, 105⟩ ∧
      (0 : ℚ) < 1 / 20 ∧
      (⟨0, 1⟩ : Vec2) =
        (1 / 20 : ℚ) • reflect_against_line ⟨0, -20⟩
          (closest_edge_to_point ⟨-3, 105⟩ (obstacle_box .block (Transform.idAt ⟨130, 0, 0⟩))) ∧
      fixed_collision_car 30 ⟨0, 1⟩ ⟨10, 10⟩ (Transform.idAt ⟨0, 100, 0⟩) ⟨0, -20⟩
          (obstacle_box .block (Transform.idAt ⟨130, 0, 0⟩)) =
        some (Transform.idAt ⟨0, 118, 0⟩, ⟨0, 20⟩) ∧
      (⟨0, 20⟩ : Vec2) = reflect_against_line ⟨0, -20⟩
        (closest_edge_to_point ⟨-3, 105⟩ (obstacle_box .block (Transform.idAt ⟨130, 0, 0⟩))) ∧
      is_touching (collision_box (Transform.idAt ⟨0, 118, 0⟩) ⟨10, 10⟩)
        (obstacle_box .block (Transform.idAt ⟨130, 0, 0⟩)) = false := by
  refine ⟨by with_unfolding_all rfl, by norm_num, by with_unfolding_all rfl,
    by with_unfolding_all rfl, ?_⟩
  exact (fixed_collision_cases 30 ⟨0, 1⟩ ⟨10, 10⟩ (Transform.idAt ⟨0, 100, 0⟩) ⟨0, -20⟩
    (obstacle_box .block (Transform.idAt ⟨130, 0, 0⟩))).1 ⟨-3, 105⟩
    (by with_unfolding_all rfl)
    ⟨1 / 20, by norm_num, by with_unfolding_all rfl⟩
    (Transform.idAt ⟨0, 118, 0⟩) ⟨0, 20⟩ (by with_unfolding_all rfl)

/-! AI steering controller. -/

/-- C5: for an AI car with zero penalty and an available guidance field, the
controller samples the field at exactly the five points offset from the car
position by 425 units at angle plus and minus a twelfth of pi, by 200 units
at angle plus and minus a sixth of pi, and by 425 units straight ahead; the
angle gains 3 * dt exactly when one of the two whisker pairs reads more than
10 units brighter on the left, symmetrically loses 3 * dt for the right, and
the velocity gains a vector of magnitude 600 * dt (inside the stated 580 to
600 times dt range when dt is nonnegative) along the facing of the updated
angle exactly when the forward sample exceeds 50. -/
theorem handle_ai_player_spec (fromAngle : ℚ → Vec2) (g : GuidanceField) (dt : ℚ)
    (pos : Vec2) (s : AiState) (hpen : s.penalty = 0) (hdt : 0 ≤ dt) :
    left_pixel fromAngle g pos s.angle =
        g.get (pos + (425 : ℚ) • fromAngle (s.angle + pi_f32 / 12)) ∧
      right_pixel fromAngle g pos s.angle =
        g.get (pos + (425 : ℚ) • fromAngle (s.angle - pi_f32 / 12)) ∧
      left_pixel2 fromAngle g pos s.angle =
        g.get (pos + (200 : ℚ) • fromAngle (s.angle + pi_f32 / 6)) ∧
      right_pixel2 fromAngle g pos s.angle =
        g.get (pos + (200 : ℚ) • fromAngle (s.angle - pi_f32 / 6)) ∧
      front_pixel fromAngle g pos s.angle = g.get (pos + (425 : ℚ) • fromAngle s.angle) ∧
      (handle_ai_player fromAngle g dt pos s).angle =
        angle_normalize (s.angle +
          (if left_pixel fromAngle g pos s.angle - 10 > right_pixel fromAngle g pos s.angle ∨
              left_pixel2 fromAngle g pos s.angle - 10 > right_pixel2 fromAngle g pos s.angle
            then dt * 3 else 0) -
          (if right_pixel fromAngle g pos s.angle - 10 > left_pixel fromAngle g pos s.angle ∨
              right_pixel2 fromAngle g pos s.angle - 10 > left_pixel2 fromAngle g pos s.angle
            then dt * 3 else 0)) ∧
      (∃ c : ℚ,
        (handle_ai_player fromAngle g dt pos s).vel =
          s.vel + c • fromAngle (s.angle +
            (if left_pixel fromAngle g pos s.angle - 10 > right_pixel fromAngle g pos s.angle ∨
                left_pixel2 fromAngle g pos s.angle - 10 > right_pixel2 fromAngle g pos s.angle
              then dt * 3 else 0) -
            (if right_pixel fromAngle g pos s.angle - 10 > left_pixel fromAngle g pos s.angle ∨
                right_pixel2 fromAngle g pos s.angle - 10 > left_pixel2 fromAngle g pos s.angle
              then dt * 3 else 0)) ∧
        (front_pixel fromAngle g pos s.angle > 50 →
          c = dt * 600 ∧ 580 * dt ≤ c ∧ c ≤ 600 * dt) ∧
        (¬ front_pixel fromAngle g pos s.angle > 50 → c = 0)) ∧
      (handle_ai_player fromAngle g dt pos s).penalty = 0 := by
  have hnot : ¬ 0 < s.penalty := by rw [hpen]; exact lt_irrefl 0
  have ha2 :
      (if right_pixel fromAngle g pos s.angle - 10 > left_pixel fromAngle g pos s.angle ∨
          right_pixel2 fromAngle g pos s.angle - 10 > left_pixel2 fromAngle g pos s.angle
        then
        (if left_pixel fromAngle g pos s.angle - 10 > right_pixel fromAngle g pos s.angle ∨
            left_pixel2 fromAngle g pos s.angle - 10 > right_pixel2 fromAngle g pos s.angle
          then s.angle + dt * 3 else s.angle) - dt * 3
        else
        (if left_pixel fromAngle g pos s.angle - 10 > right_pixel fromAngle g pos s.angle ∨
            left_pixel2 fromAngle g pos s.angle - 10 > right_pixel2 fromAngle g pos s.angle
          then s.angle + dt * 3 else s.angle)) =
      s.angle +
        (if left_pixel fromAngle g pos s.angle - 10 > right_pixel fromAngle g pos s.angle ∨
            left_pixel2 fromAngle g pos s.angle - 10 > right_pixel2 fromAngle g pos s.angle
          then dt * 3 else 0) -
        (if right_pixel fromAngle g pos s.angle - 10 > left_pixel fromAngle g pos s.angle ∨
            right_pixel2 fromAngle g pos s.angle - 10 > left_pixel2 fromAngle g pos s.angle
          then dt * 3 else 0) := by
    split_ifs <;> ring
  refine ⟨rfl, rfl, rfl, rfl, rfl, ?_, ?_, ?_⟩
  · simp only [handle_ai_player, if_neg hnot]
    rw [ha2]
  · simp only [handle_ai_player, if_neg hnot]
    by_cases hfp : front_pixel fromAngle g pos s.angle > 50
    · refine ⟨dt * 600, ?_, fun _ => ⟨rfl, by linarith, by linarith⟩, fun h => absurd hfp h⟩
      rw [if_pos hfp, ha2]
    · refine ⟨0, ?_, fun h => absurd h hfp, fun _ => rfl⟩
      rw [if_neg hfp]
      ext <;> simp
  · simp only [handle_ai_player, if_neg hnot]
    exact hpen

/-- C5 witness: a constant facing function, an all-bright 1000 by 1000
field, zero penalty and dt one tenth; the theorem instance gives the angle
update equation at this input. -/
theorem handle_ai_player_spec_witness :
    (⟨0, ⟨0, 0⟩, 0⟩ : AiState).penalty = 0 ∧ (0 : ℚ) ≤ 1 / 10 ∧
      (handle_ai_player (fun _ => ⟨1, 0⟩) ⟨1000, 1000, fun _ _ => 255⟩ (1 / 10) 0
          ⟨0, ⟨0, 0⟩, 0⟩).angle =
        angle_normalize ((⟨0, ⟨0, 0⟩, 0⟩ : AiState).angle +
          (if left_pixel (fun _ => ⟨1, 0⟩) ⟨1000, 1000, fun _ _ => 255⟩ 0
                  (⟨0, ⟨0, 0⟩, 0⟩ : AiState).angle - 10 >
                right_pixel (fun _ => ⟨1, 0⟩) ⟨1000, 1000, fun _ _ => 255⟩ 0
                  (⟨0, ⟨0, 0⟩, 0⟩ : AiState).angle ∨
              left_pixel2 (fun _ => ⟨1, 0⟩) ⟨1000, 1000, fun _ _ => 255⟩ 0
                  (⟨0, ⟨0, 0⟩, 0⟩ : AiState).angle - 10 >
                right_pixel2 (fun _ => ⟨1, 0⟩) ⟨1000, 1000, fun _ _ => 255⟩ 0
                  (⟨0, ⟨0, 0⟩, 0⟩ : AiState).angle
            then (1 / 10 : ℚ) * 3 else 0) -
          (if right_pixel (fun _ => ⟨1, 0⟩) ⟨1000, 1000, fun _ _ => 255⟩ 0
                  (⟨0, ⟨0, 0⟩, 0⟩ : AiState).angle - 10 >
                left_pixel (fun _ => ⟨1, 0⟩) ⟨1000, 1000, fun _ _ => 255⟩ 0
                  (⟨0, ⟨0, 0⟩, 0⟩ : AiState).angle ∨
              right_pixel2 (fun _ => ⟨1, 0⟩) ⟨1000, 1000, fun _ _ => 255⟩ 0
                  (⟨0, ⟨0, 0⟩, 0⟩ : AiState).angle - 10 >
                left_pixel2 (fun _ => ⟨1, 0⟩) ⟨1000, 1000, fun _ _ => 255⟩ 0
                  (⟨0, ⟨0, 0⟩, 0⟩ : AiState).angle
            then (1 / 10 : ℚ) * 3 else 0)) :=
  ⟨rfl, by norm_num,
    (handle_ai_player_spec (fun _ => ⟨1, 0⟩) ⟨1000, 1000, fun _ _ => 255⟩ (1 / 10) 0
      ⟨0, ⟨0, 0⟩, 0⟩ rfl (by norm_num)).2.2.2.2.2.1⟩

/-! Lap counting. -/

/-- C2: each checkpoint is assigned the bit 1 shifted left by its authoring
order, that is two to that power; a touch with the full sub-mask at the
start/finish checkpoint increments the lap count and resets the sub-mask to
that single bit; and the concrete three-checkpoint scenario touching bits
1, 2, 4, 1 in order from the blank state ends with one lap counted and
sub-mask 1. -/
theorem lap_counter_spec :
    (∀ n : ℕ, checkpoint_bit n = 2 ^ n) ∧
      (∀ fullMask bit : ℕ, ∀ s : LapState,
        s.sub_mask ||| bit = fullMask →
        bit = (if s.start_finish_bit = 0 then bit else s.start_finish_bit) →
        lap_touch fullMask bit s =
          ⟨s.lap_count + 1, bit, if s.start_finish_bit = 0 then bit else s.start_finish_bit⟩) ∧
      List.foldl (fun s b => lap_touch 7 b s) ⟨0, 0, 0⟩ [1, 2, 4, 1] =
        (⟨1, 1, 1⟩ : LapState) := by
  refine ⟨fun n => Nat.one_shiftLeft n, ?_, by decide⟩
  intro fullMask bit s hsub hbit
  unfold lap_touch
  rw [if_pos ⟨hsub, hbit⟩]

/-- C2 witness: the general touch rule at a concrete state, a car with
start/finish bit 1 and sub-mask 7 touching bit 1 with fullMask 7. -/
theorem lap_counter_spec_witness :
    ((⟨0, 7, 1⟩ : LapState).sub_mask ||| 1 = 7) ∧
      ((1 : ℕ) = if (⟨0, 7, 1⟩ : LapState).start_finish_bit = 0 then 1
        else (⟨0, 7, 1⟩ : LapState).start_finish_bit) ∧
      lap_touch 7 1 ⟨0, 7, 1⟩ = ⟨0 + 1, 1, 1⟩ := by
  refine ⟨by decide, by decide, ?_⟩
  have := lap_counter_spec.2.1 7 1 ⟨0, 7, 1⟩ (by decide) (by decide)
  simpa using this

end TDR
